import Mathlib

/-!
Shallow embedding of `src/main.py` (Azure Function: Excel → Azure SQL & Blob
ETL pipeline) and proofs of the specification claims about it.

The embedding models:
* the encoding-repair substitution table `df.replace({"Ð¢": "T", "Ðš": "K"})`
  (line 79) as a literal leftmost substring scanner `rep2` over `List Char`;
* the tabular normalization (lines 64-79) over rows of named string-valued
  fields;
* the blob container as an association list from path to an abstract byte
  identifier, with the locator (lines 44-54), and the image pipeline
  (lines 92-123) including per-cell failure injection (a cell's `failAt`
  says which of the five fallible operations — decode, exists, copy,
  delete, upload — raises, `none` meaning all succeed);
* the whole `main` handler as a function from an environment to either an
  unhandled exception (`Except.error`) or an HTTP outcome together with the
  final store, the list of image-pipeline events and the appended rows.
-/

namespace AzureEtl

/-! ### Literal substring replacement (model of `df.replace`, line 79)

The two patterns in the source are each two characters long:
`"Ð¢"` is `U+00D0 U+00A2` and `"Ðš"` is `U+00D0 U+0161`.  Both patterns
contain no regex metacharacter, so pandas' `regex=True` replacement
coincides with literal leftmost non-overlapping substring replacement,
which `rep2` implements directly. -/

/-- Replace every leftmost occurrence of the two-character pattern
`[p0, p1]` by the single character `r`, scanning left to right. -/
def rep2 (p0 p1 r : Char) : List Char → List Char
  | [] => []
  | [c] => [c]
  | c0 :: c1 :: rest =>
    if c0 = p0 ∧ c1 = p1 then r :: rep2 p0 p1 r rest
    else c0 :: rep2 p0 p1 r (c1 :: rest)

/-- Does the list contain the two-character pattern `[p0, p1]` as a
contiguous substring? -/
def hasPat (p0 p1 : Char) : List Char → Bool
  | [] => false
  | [_] => false
  | c0 :: c1 :: rest => ((c0 = p0) && (c1 = p1)) || hasPat p0 p1 (c1 :: rest)

/-- The two-step replacement of the source's substitution table
`{"Ð¢": "T", "Ðš": "K"}`, on character lists. -/
def replL (l : List Char) : List Char :=
  rep2 'Ð' 'š' 'K' (rep2 'Ð' '¢' 'T' l)

/-- The source's encoding repair on a string value. -/
def repl (s : String) : String := String.mk (replL s.data)

/-- The first corrupted pattern, `U+00D0 U+00A2`. -/
def corruptT : String := "Ð¢"

/-- The second corrupted pattern, `U+00D0 U+0161`. -/
def corruptK : String := "Ðš"

/-- The per-record image link, following
`f"/{container_name}/DATASET/{x}/{x}.png"` (lines 74-76). -/
def mkLink (container idv : String) : String :=
  "/" ++ container ++ "/DATASET/" ++ idv ++ "/" ++ idv ++ ".png"

/-- A cell value: a Python string or `None`. -/
abbrev Val := Option String

/-- One tabular row: named values in column order. -/
abbrev Row := List (String × Val)

/-- Python `str()` rendering used by f-strings. -/
def pyStr : Val → String
  | none => "None"
  | some s => s

/-- Column read `df[k]` restricted to one row: first field named `k`. -/
def lookupVal (r : Row) (k : String) : Option Val :=
  (r.find? (fun p => p.1 = k)).map (·.2)

/-- Column assignment `df[k] = v` restricted to one row: overwrite the
field if the column exists, otherwise append it. -/
def setPair (k : String) (v : Val) (r : Row) : Row :=
  if r.any (fun p => p.1 = k) then
    r.map (fun p => if p.1 = k then (k, v) else p)
  else r ++ [(k, v)]

/-- The encoding repair on one value: only strings are rewritten. -/
def replVal : Val → Val := Option.map repl

/-- Drop `Unused_Column` and rename `OldName` to `DATASET_ID`
(lines 65 and 68), on one row. -/
def normRow1 (row : Row) : Row :=
  (row.filter (fun p => p.1 ≠ "Unused_Column")).map
    (fun p => if p.1 = "OldName" then ("DATASET_ID", p.2) else p)

/-- Inject the metadata columns (lines 69-71), in source order. -/
def addMeta (ts : String) (email : Option String) (row : Row) : Row :=
  setPair "Created_by" email
    (setPair "Last_modified" (some ts)
      (setPair "Create_date" (some ts) row))

/-- Drop and rename applied to the header of `Sheet1`. -/
def normHeader (hdr : List String) : List String :=
  (hdr.filter (fun c => c ≠ "Unused_Column")).map
    (fun c => if c = "OldName" then "DATASET_ID" else c)

/-- The parsed `Sheet1`: header and rows. -/
structure DF where
  header : List String
  rows : List Row

/-- The whole tabular normalization (lines 60-79).  Reading the
`DATASET_ID` column raises a `KeyError` (modelled as `Except.error`)
when no such column exists after drop/rename. -/
def normDF (container ts : String) (email : Option String) (df : DF) :
    Except Unit (List Row) :=
  let hdr1 := normHeader df.header
  let rows2 := df.rows.map (fun r => addMeta ts email (normRow1 r))
  if "DATASET_ID" ∈ hdr1 then
    let rows3 := rows2.map (fun r =>
      setPair "Image_link"
        (some (mkLink container (pyStr ((lookupVal r "DATASET_ID").getD none)))) r)
    Except.ok (rows3.map (fun r => r.map (fun p => (p.1, replVal p.2))))
  else Except.error ()

/-- The blob container: blob name paired with abstract content, in
listing order. -/
abbrev Store := List (String × Nat)

/-- Content at a path, `none` when no blob exists there. -/
def lookupS (st : Store) (p : String) : Option Nat :=
  (st.find? (fun b => b.1 = p)).map (·.2)

/-- `upload_blob(..., overwrite=True)`. -/
def uploadB (st : Store) (p : String) (v : Nat) : Store :=
  (p, v) :: st.filter (fun b => b.1 ≠ p)

/-- `delete_blob()`. -/
def deleteB (st : Store) (p : String) : Store :=
  st.filter (fun b => b.1 ≠ p)

/-- `start_copy_from_url` from an existing source blob (only invoked by
the source after a successful existence check). -/
def copyB (st : Store) (src dst : String) : Store :=
  match lookupS st src with
  | some v => uploadB st dst v
  | none => st

/-- The canonical image path for a sheet,
`f"DATASET/{sheet.title}/{sheet.title}.png"` (line 108). -/
def targetPath (s : String) : String :=
  "DATASET/" ++ s ++ "/" ++ s ++ ".png"

/-- The archive path for a sheet and timestamp,
`f"DATASET/{sheet.title}/Archive/{sheet.title}_{current_time}.png"`
(line 113). -/
def archivePath (s ts : String) : String :=
  "DATASET/" ++ s ++ "/Archive/" ++ s ++ "_" ++ ts ++ ".png"

/-- The excluded cell coordinates (line 95). -/
def excludedCells : List String := ["A1", "K1", "L1", "M3", "I1"]

/-- One scanned cell of a sheet.  `hasImage` is the result of
`image_loader.image_in(coordinate)`; `imageBytes` abstracts the decoded
PNG bytes; `failAt` injects a failure into the `try` block: `some 0` =
decode/re-encode raises, `some 1` = the existence check raises, `some 2`
= the archive copy raises, `some 3` = the delete raises, `some 4` = the
upload raises; `none` (or an index never reached) = no failure. -/
structure Cell where
  coordinate : String
  hasImage : Bool
  imageBytes : Nat
  failAt : Option Nat
deriving DecidableEq

/-- A record of one attempted image extraction/publication; `extracted`
means the decode succeeded (an `ExtractedImage` came into being),
`published` means the upload completed, `archived` is the archive path
written by the copy step when it ran. -/
structure Event where
  sheet : String
  rowIdx : Nat
  coordinate : String
  target : String
  bytes : Nat
  extracted : Bool
  published : Bool
  archived : Option String
deriving DecidableEq

/-- The body of the `try` block (lines 102-120) for one eligible cell:
decode, existence check, archive copy + delete when the target exists,
then upload.  Raising at step `k` leaves exactly the store mutations of
the completed earlier steps. -/
def attempt (sheetT ts : String) (i : Nat) (c : Cell) (st : Store) :
    Store × Event :=
  let tgt := targetPath sheetT
  if c.failAt = some 0 then
    (st, ⟨sheetT, i, c.coordinate, tgt, c.imageBytes, false, false, none⟩)
  else if c.failAt = some 1 then
    (st, ⟨sheetT, i, c.coordinate, tgt, c.imageBytes, true, false, none⟩)
  else
    match lookupS st tgt with
    | some _ =>
      if c.failAt = some 2 then
        (st, ⟨sheetT, i, c.coordinate, tgt, c.imageBytes, true, false, none⟩)
      else
        let ap := archivePath sheetT ts
        let st1 := copyB st tgt ap
        if c.failAt = some 3 then
          (st1, ⟨sheetT, i, c.coordinate, tgt, c.imageBytes, true, false, some ap⟩)
        else
          let st2 := deleteB st1 tgt
          if c.failAt = some 4 then
            (st2, ⟨sheetT, i, c.coordinate, tgt, c.imageBytes, true, false, some ap⟩)
          else
            (uploadB st2 tgt c.imageBytes,
              ⟨sheetT, i, c.coordinate, tgt, c.imageBytes, true, true, some ap⟩)
    | none =>
      if c.failAt = some 4 then
        (st, ⟨sheetT, i, c.coordinate, tgt, c.imageBytes, true, false, none⟩)
      else
        (uploadB st tgt c.imageBytes,
          ⟨sheetT, i, c.coordinate, tgt, c.imageBytes, true, true, none⟩)

/-- Scan the cells of one row left to right (lines 100-123): skip cells
without an image or at an excluded coordinate; `break` out of the row on
a successful upload; `continue` on a failure. -/
def processRow (sheetT ts : String) (i : Nat) (st : Store) :
    List Cell → Store × List Event
  | [] => (st, [])
  | c :: cs =>
    if c.hasImage && !(excludedCells.contains c.coordinate) then
      if (attempt sheetT ts i c st).2.published then
        ((attempt sheetT ts i c st).1, [(attempt sheetT ts i c st).2])
      else
        ((processRow sheetT ts i (attempt sheetT ts i c st).1 cs).1,
          (attempt sheetT ts i c st).2 ::
            (processRow sheetT ts i (attempt sheetT ts i c st).1 cs).2)
    else processRow sheetT ts i st cs

/-- One worksheet: its title and its grid of scanned cells. -/
structure Sheet where
  title : String
  rows : List (List Cell)

/-- Scan rows top to bottom (line 99), numbering them from `i`. -/
def processRowsFrom (sheetT ts : String) (i : Nat) (st : Store) :
    List (List Cell) → Store × List Event
  | [] => (st, [])
  | r :: rs =>
    ((processRowsFrom sheetT ts (i + 1) (processRow sheetT ts i st r).1 rs).1,
      (processRow sheetT ts i st r).2 ++
        (processRowsFrom sheetT ts (i + 1) (processRow sheetT ts i st r).1 rs).2)

/-- Process one worksheet. -/
def processSheet (ts : String) (st : Store) (sh : Sheet) : Store × List Event :=
  processRowsFrom sh.title ts 0 st sh.rows

/-- Process a list of worksheets in order (line 97), threading the
store. -/
def processSheets (ts : String) (st : Store) : List Sheet → Store × List Event
  | [] => (st, [])
  | s :: ss =>
    ((processSheets ts (processSheet ts st s).1 ss).1,
      (processSheet ts st s).2 ++ (processSheets ts (processSheet ts st s).1 ss).2)

/-- The whole image phase: `workbook.worksheets[4:]` (line 94). -/
def imagePhase (ts : String) (st : Store) (sheets : List Sheet) :
    Store × List Event :=
  processSheets ts st (sheets.drop 4)

/-! ### Object locator (lines 44-54) -/

/-- Boolean list-prefix test. -/
def isPrefixB : List Char → List Char → Bool
  | [], _ => true
  | _ :: _, [] => false
  | a :: as, b :: bs => a = b && isPrefixB as bs

/-- Boolean substring test, Python's `x in s` on strings. -/
def isSubstrB (n : List Char) : List Char → Bool
  | [] => isPrefixB n []
  | c :: t => isPrefixB n (c :: t) || isSubstrB n t

/-- Python truthiness of the optional identifier: `None` and the empty
string are falsy. -/
def truthy : Option String → Bool
  | none => false
  | some s => !s.isEmpty

/-- `user_email in blob.name` (only evaluated when the email is truthy). -/
def emailIn (email : Option String) (nm : String) : Bool :=
  match email with
  | none => false
  | some e => isSubstrB e.data nm.data

/-- The locator: first blob in listing order under the prefix
`DATASET/Current` whose name passes
`if user_email and user_email in blob.name` (lines 45-49). -/
def locateBlob (email : Option String) (st : Store) : Option (String × Nat) :=
  (st.filter (fun b => isPrefixB "DATASET/Current".data b.1.data)).find?
    (fun b => truthy email && emailIn email b.1)

/-! ### The request handler `main` (lines 27-125) -/

/-- Parse results of one workbook's bytes: `Sheet1` for the tabular side
and all worksheets for the image side. -/
structure Workbook where
  sheet1 : DF
  sheets : List Sheet

/-- An HTTP response: status code and body. -/
structure Response where
  status : Nat
  body : String
deriving DecidableEq

/-- The environment of one invocation: request parameter, configuration,
request-time timestamp (already formatted), whether the SQL append
succeeds, the container contents, and the workbook parser for blob
contents. -/
structure Env where
  email : Option String
  container : String
  now : String
  dbOk : Bool
  store : Store
  parse : Nat → Workbook

/-- The observable outcome of a completed (non-crashing) invocation:
the response, the final container state, the image-pipeline events,
whether `to_sql` was reached, and the rows appended to the table. -/
structure Outcome where
  resp : Response
  store : Store
  events : List Event
  dbAttempted : Bool
  rows : List Row

/-- `json.dumps({"msg": "success"})`. -/
def successBody : String := "\x7b\"msg\": \"success\"\x7d"

/-- The handler.  `Except.error ()` models an unhandled Python exception
escaping `main` (here: the `KeyError` of reading a missing `DATASET_ID`
column, line 74). -/
def main (env : Env) : Except Unit Outcome :=
  match locateBlob env.email env.store with
  | none =>
    Except.ok ⟨⟨404, "No file found for user " ++ pyStr env.email⟩,
      env.store, [], false, []⟩
  | some blob =>
    let wb := env.parse blob.2
    match normDF env.container env.now env.email wb.sheet1 with
    | Except.error _ => Except.error ()
    | Except.ok records =>
      if env.dbOk then
        let res := imagePhase env.now env.store wb.sheets
        Except.ok ⟨⟨200, successBody⟩, res.1, res.2, true, records⟩
      else
        Except.ok ⟨⟨500, "Database upload failed."⟩, env.store, [], true, []⟩

/-- Specification-side abstract step for one successful publish on a
sheet's (archive, target) pair: when the target holds something it is
archived, and the target then holds the published bytes. -/
def simStep (s : Option Nat × Option Nat) (b : Nat) : Option Nat × Option Nat :=
  (match s.2 with
   | some t => some t
   | none => s.1, some b)

/-- Specification-side fold of `simStep` over the published byte
sequence, from an initial (archive, target) pair. -/
def simAT (a t : Option Nat) (bs : List Nat) : Option Nat × Option Nat :=
  bs.foldl simStep (a, t)

/-! ### Lemmas and claim theorems -/

theorem hasPat_cons (p0 p1 c : Char) (l : List Char) :
    hasPat p0 p1 (c :: l) =
      match l with
      | [] => false
      | d :: _ => ((c = p0) && (d = p1)) || hasPat p0 p1 l := by
  cases l <;> rfl

theorem hasPat_tail {p0 p1 c : Char} {l : List Char}
    (h : hasPat p0 p1 (c :: l) = false) : hasPat p0 p1 l = false := by
  cases l with
  | nil => rfl
  | cons d t =>
    rw [hasPat_cons] at h
    exact (Bool.or_eq_false_iff.mp h).2

theorem rep2_ne_nil (p0 p1 r : Char) (l : List Char) (h : l ≠ []) :
    rep2 p0 p1 r l ≠ [] := by
  match l with
  | [] => exact absurd rfl h
  | [c] => simp [rep2]
  | c0 :: c1 :: rest =>
    rw [rep2]
    split <;> simp

theorem rep2_cons_ne (p0 p1 r c : Char) (l : List Char) (h : c ≠ p0) :
    rep2 p0 p1 r (c :: l) = c :: rep2 p0 p1 r l := by
  cases l with
  | nil => rfl
  | cons d t =>
    rw [rep2]
    rw [if_neg]
    intro hc
    exact h hc.1

/-- A list without the pattern is left unchanged by the replacement. -/
theorem rep2_pass (p0 p1 r : Char) :
    ∀ l : List Char, hasPat p0 p1 l = false → rep2 p0 p1 r l = l
  | [], _ => rfl
  | [c], _ => rfl
  | c0 :: c1 :: rest, h => by
    rw [hasPat] at h
    rcases Bool.or_eq_false_iff.mp h with ⟨h1, h2⟩
    rw [rep2, if_neg, rep2_pass p0 p1 r (c1 :: rest) h2]
    intro hc
    simp [hc.1, hc.2] at h1

/-- The replacement distributes over append when no occurrence of the
pattern straddles the junction. -/
theorem rep2_append (p0 p1 r : Char) :
    ∀ a b : List Char, (a.getLast? = some p0 → b.head? ≠ some p1) →
      rep2 p0 p1 r (a ++ b) = rep2 p0 p1 r a ++ rep2 p0 p1 r b
  | [], b, _ => by simp [rep2]
  | [x], b, h => by
    cases b with
    | nil => simp [rep2]
    | cons y bs =>
      have hnc : ¬(x = p0 ∧ y = p1) := by
        intro hc
        have hx : ([x].getLast? = some p0) := by simp [hc.1]
        have := h hx
        simp [hc.2] at this
      simp only [List.cons_append, List.nil_append, rep2, if_neg hnc]
  | x :: y :: as, b, h => by
    have hlast : (y :: as).getLast? = (x :: y :: as).getLast? := by
      simp [List.getLast?_cons_cons]
    by_cases hm : x = p0 ∧ y = p1
    · have hstep : rep2 p0 p1 r (x :: y :: as ++ b) = r :: rep2 p0 p1 r (as ++ b) := by
        simp only [List.cons_append, rep2, if_pos hm, List.append_eq]
      have hstepa : rep2 p0 p1 r (x :: y :: as) = r :: rep2 p0 p1 r as := by
        simp only [rep2, if_pos hm]
      have hih : rep2 p0 p1 r (as ++ b) = rep2 p0 p1 r as ++ rep2 p0 p1 r b := by
        apply rep2_append p0 p1 r as b
        intro hla
        apply h
        cases as with
        | nil => simp at hla
        | cons z zs => rw [← hlast, List.getLast?_cons_cons]; exact hla
      rw [hstep, hih, hstepa]
      rfl
    · have hstep : rep2 p0 p1 r (x :: y :: as ++ b) = x :: rep2 p0 p1 r ((y :: as) ++ b) := by
        simp only [List.cons_append, rep2, if_neg hm, List.append_eq]
      have hstepa : rep2 p0 p1 r (x :: y :: as) = x :: rep2 p0 p1 r (y :: as) := by
        simp only [rep2, if_neg hm]
      have hih : rep2 p0 p1 r ((y :: as) ++ b) =
          rep2 p0 p1 r (y :: as) ++ rep2 p0 p1 r b := by
        apply rep2_append p0 p1 r (y :: as) b
        intro hla
        exact h (hlast ▸ hla)
      rw [hstep, hih, hstepa]
      rfl

/-- After the replacement, no occurrence of the pattern remains, as long as
the replacement character cannot rebuild one. -/
theorem rep2_no_leftover (p0 p1 r : Char) (h0 : r ≠ p0) (h1 : r ≠ p1) :
    ∀ l : List Char, hasPat p0 p1 (rep2 p0 p1 r l) = false
  | [] => rfl
  | [_] => rfl
  | x :: y :: as => by
    by_cases hm : x = p0 ∧ y = p1
    · rw [rep2, if_pos hm, hasPat_cons]
      cases hout : rep2 p0 p1 r as with
      | nil => rfl
      | cons d t =>
        have : hasPat p0 p1 (rep2 p0 p1 r as) = false := rep2_no_leftover p0 p1 r h0 h1 as
        rw [hout] at this
        simp [this, h0]
    · rw [rep2, if_neg hm, hasPat_cons]
      have htail : hasPat p0 p1 (rep2 p0 p1 r (y :: as)) = false :=
        rep2_no_leftover p0 p1 r h0 h1 (y :: as)
      cases hout : rep2 p0 p1 r (y :: as) with
      | nil => rfl
      | cons d t =>
        rw [hout] at htail
        have hd : d = r ∨ d = y := by
          cases as with
          | nil =>
            have : rep2 p0 p1 r [y] = [y] := rfl
            rw [this] at hout
            right
            exact (List.cons.injEq _ _ _ _ ▸ hout).1.symm
          | cons z zs =>
            rw [rep2] at hout
            split at hout
            · left; exact ((List.cons.injEq _ _ _ _).mp hout).1.symm
            · right; exact ((List.cons.injEq _ _ _ _).mp hout).1.symm
        have hpair : ((x = p0) && (d = p1)) = false := by
          rcases hd with hd | hd
          · subst hd
            simp [h1]
          · subst hd
            by_cases hx : x = p0
            · by_cases hy : d = p1
              · exact absurd ⟨hx, hy⟩ hm
              · simp [hy]
            · simp [hx]
        simp [hpair, htail]

/-- The replacement cannot create an occurrence of a different pattern
`[q0, q1]` that was absent, as long as the replacement character is not a
character of that pattern. -/
theorem rep2_preserve_absent (p0 p1 r q0 q1 : Char) (h0 : r ≠ q0) (h1 : r ≠ q1) :
    ∀ l : List Char, hasPat q0 q1 l = false →
      hasPat q0 q1 (rep2 p0 p1 r l) = false
  | [], _ => rfl
  | [_], _ => rfl
  | x :: y :: as, habs => by
    have habs2 : hasPat q0 q1 (y :: as) = false := hasPat_tail habs
    by_cases hm : x = p0 ∧ y = p1
    · rw [rep2, if_pos hm, hasPat_cons]
      have habs3 : hasPat q0 q1 as = false := hasPat_tail habs2
      have hrec : hasPat q0 q1 (rep2 p0 p1 r as) = false :=
        rep2_preserve_absent p0 p1 r q0 q1 h0 h1 as habs3
      cases hout : rep2 p0 p1 r as with
      | nil => rfl
      | cons d t =>
        rw [hout] at hrec
        simp [hrec, h0]
    · rw [rep2, if_neg hm, hasPat_cons]
      have hrec : hasPat q0 q1 (rep2 p0 p1 r (y :: as)) = false :=
        rep2_preserve_absent p0 p1 r q0 q1 h0 h1 (y :: as) habs2
      cases hout : rep2 p0 p1 r (y :: as) with
      | nil => rfl
      | cons d t =>
        rw [hout] at hrec
        have hd : d = r ∨ d = y := by
          cases as with
          | nil =>
            have : rep2 p0 p1 r [y] = [y] := rfl
            rw [this] at hout
            right
            exact ((List.cons.injEq _ _ _ _).mp hout).1.symm
          | cons z zs =>
            rw [rep2] at hout
            split at hout
            · left; exact ((List.cons.injEq _ _ _ _).mp hout).1.symm
            · right; exact ((List.cons.injEq _ _ _ _).mp hout).1.symm
        have hpair : ((x = q0) && (d = q1)) = false := by
          rcases hd with hd | hd
          · subst hd
            simp [h1]
          · subst hd
            rw [hasPat_cons] at habs
            exact (Bool.or_eq_false_iff.mp habs).1
        simp [hpair, hrec]

theorem str_ext {a b : String} (h : a.data = b.data) : a = b := by
  cases a
  cases b
  exact congrArg String.mk h

theorem replL_cons (c : Char) (l : List Char) (hc : c ≠ 'Ð') :
    replL (c :: l) = c :: replL l := by
  rw [replL, replL, rep2_cons_ne _ _ _ _ _ hc, rep2_cons_ne _ _ _ _ _ hc]

/-- `replL` distributes over an append whose right part starts with a
path separator (which occurs in neither pattern). -/
theorem replL_append_sep (a b : List Char)
    (hb : b.head? = some '/' ∨ b.head? = some '.') :
    replL (a ++ b) = replL a ++ replL b := by
  obtain ⟨c, t, rfl, hc⟩ : ∃ c t, b = c :: t ∧ (c = '/' ∨ c = '.') := by
    rcases hb with hb | hb
    · cases b with
      | nil => simp at hb
      | cons c t =>
        refine ⟨c, t, rfl, Or.inl ?_⟩
        simpa using hb
    · cases b with
      | nil => simp at hb
      | cons c t =>
        refine ⟨c, t, rfl, Or.inr ?_⟩
        simpa using hb
  have hcD : c ≠ 'Ð' := by rcases hc with rfl | rfl <;> decide
  have hc1 : (c :: t).head? ≠ some '¢' := by
    intro h
    rw [List.head?_cons] at h
    have hcc := Option.some.inj h
    rcases hc with rfl | rfl <;> exact absurd hcc (by decide)
  have h1 : rep2 'Ð' '¢' 'T' (a ++ c :: t) =
      rep2 'Ð' '¢' 'T' a ++ rep2 'Ð' '¢' 'T' (c :: t) :=
    rep2_append _ _ _ _ _ (fun _ => hc1)
  have hc2 : (rep2 'Ð' '¢' 'T' (c :: t)).head? ≠ some 'š' := by
    rw [rep2_cons_ne _ _ _ _ _ hcD]
    intro h
    rw [List.head?_cons] at h
    have hcc := Option.some.inj h
    rcases hc with rfl | rfl <;> exact absurd hcc (by decide)
  rw [replL, h1, replL, replL]
  exact rep2_append _ _ _ _ _ (fun _ => hc2)

/-- `replL` distributes over an append whose left part ends with a
character other than the shared pattern head `Ð`. -/
theorem replL_append_sl (a b : List Char)
    (h1 : a.getLast? ≠ some 'Ð')
    (h2 : (rep2 'Ð' '¢' 'T' a).getLast? ≠ some 'Ð') :
    replL (a ++ b) = replL a ++ replL b := by
  have hs1 : rep2 'Ð' '¢' 'T' (a ++ b) =
      rep2 'Ð' '¢' 'T' a ++ rep2 'Ð' '¢' 'T' b := by
    refine rep2_append _ _ _ a b ?_
    intro hla
    exact absurd hla h1
  rw [replL, hs1, replL, replL]
  refine rep2_append _ _ _ _ _ ?_
  intro hla
  exact absurd hla h2

theorem data_mkLink (container idv : String) :
    (mkLink container idv).data =
      '/' :: (container.data ++
        ('/' :: 'D' :: 'A' :: 'T' :: 'A' :: 'S' :: 'E' :: 'T' :: '/' ::
          (idv.data ++ ('/' :: (idv.data ++ ['.', 'p', 'n', 'g']))))) := by
  simp only [mkLink, String.data_append, List.append_assoc]
  rfl

theorem replL_link (A X : List Char) :
    replL ('/' :: (A ++
        ('/' :: 'D' :: 'A' :: 'T' :: 'A' :: 'S' :: 'E' :: 'T' :: '/' ::
          (X ++ ('/' :: (X ++ ['.', 'p', 'n', 'g'])))))) =
      '/' :: (replL A ++
        ('/' :: 'D' :: 'A' :: 'T' :: 'A' :: 'S' :: 'E' :: 'T' :: '/' ::
          (replL X ++ ('/' :: (replL X ++ ['.', 'p', 'n', 'g']))))) := by
  rw [replL_cons _ _ (by decide)]
  rw [replL_append_sep A
    ('/' :: 'D' :: 'A' :: 'T' :: 'A' :: 'S' :: 'E' :: 'T' :: '/' ::
      (X ++ ('/' :: (X ++ ['.', 'p', 'n', 'g'])))) (Or.inl rfl)]
  rw [replL_cons _ _ (by decide)]
  rw [replL_cons _ _ (by decide)]
  rw [replL_cons _ _ (by decide)]
  rw [replL_cons _ _ (by decide)]
  rw [replL_cons _ _ (by decide)]
  rw [replL_cons _ _ (by decide)]
  rw [replL_cons _ _ (by decide)]
  rw [replL_cons _ _ (by decide)]
  rw [replL_cons _ _ (by decide)]
  rw [replL_append_sep X ('/' :: (X ++ ['.', 'p', 'n', 'g'])) (Or.inl rfl)]
  rw [replL_cons _ _ (by decide)]
  rw [replL_append_sep X ['.', 'p', 'n', 'g'] (Or.inr rfl)]
  have hpng : replL ['.', 'p', 'n', 'g'] = ['.', 'p', 'n', 'g'] := by decide
  rw [hpng]

/-- The encoding repair commutes with link building: repairing a built
link is the same as building the link from the repaired parts.  (No
occurrence of either corrupted pattern can straddle a `/` or `.`
junction, since neither pattern contains those characters.) -/
theorem repl_mkLink (container idv : String) :
    repl (mkLink container idv) = mkLink (repl container) (repl idv) := by
  apply str_ext
  rw [repl]
  show replL (mkLink container idv).data = (mkLink (repl container) (repl idv)).data
  rw [data_mkLink, data_mkLink, replL_link]
  rfl

/-! ### Tabular rows and normalization (lines 56-79)

A row of `Sheet1` is a list of named values.  A value is `none` for a
Python `None`/missing value and `some s` for a string — `df.replace`
only rewrites string values, and the f-string of the link lambda renders
a `None` as `"None"`. -/

theorem lookupVal_cons (p : String × Val) (t : Row) (k : String) :
    lookupVal (p :: t) k = if p.1 = k then some p.2 else lookupVal t k := by
  by_cases h : p.1 = k
  · rw [lookupVal, List.find?_cons_of_pos _ (by simpa using h), if_pos h]
    rfl
  · rw [lookupVal, List.find?_cons_of_neg _ (by simpa using h), if_neg h]
    rfl

theorem lookupVal_map_val (f : Val → Val) (k : String) :
    ∀ r : Row, lookupVal (r.map (fun p => (p.1, f p.2))) k = (lookupVal r k).map f
  | [] => rfl
  | p :: t => by
    simp only [List.map_cons, lookupVal_cons]
    by_cases h : p.1 = k
    · simp [h]
    · simp [h, lookupVal_map_val f k t]

theorem lookupVal_overwrite (k : String) (v : Val) :
    ∀ r : Row, r.any (fun p => p.1 = k) = true →
      lookupVal (r.map (fun p => if p.1 = k then (k, v) else p)) k = some v
  | [], h => by simp at h
  | p :: t, h => by
    by_cases hp : p.1 = k
    · simp [List.map_cons, if_pos hp, lookupVal_cons]
    · simp only [List.map_cons, if_neg hp, lookupVal_cons, hp, if_false]
      apply lookupVal_overwrite k v t
      simpa [List.any_cons, hp] using h

theorem lookupVal_append_single (k : String) (v : Val) :
    ∀ r : Row, r.any (fun p => p.1 = k) = false →
      lookupVal (r ++ [(k, v)]) k = some v
  | [], _ => by simp [lookupVal_cons]
  | p :: t, h => by
    have hp : ¬(p.1 = k) := by
      intro hc
      simp [List.any_cons, hc] at h
    rw [List.cons_append, lookupVal_cons, if_neg hp]
    apply lookupVal_append_single k v t
    simpa [List.any_cons, hp] using h

theorem lookupVal_setPair_self (k : String) (v : Val) (r : Row) :
    lookupVal (setPair k v r) k = some v := by
  rw [setPair]
  split
  · exact lookupVal_overwrite k v r (by assumption)
  · rename_i h
    exact lookupVal_append_single k v r (Bool.eq_false_iff.mpr h)

theorem lookupVal_overwrite_ne (k k2 : String) (v : Val) (h : k2 ≠ k) :
    ∀ r : Row,
      lookupVal (r.map (fun p => if p.1 = k then (k, v) else p)) k2 = lookupVal r k2
  | [] => rfl
  | p :: t => by
    by_cases hp : p.1 = k
    · have h1 : ¬(k = k2) := fun hc => h hc.symm
      have h2 : ¬(p.1 = k2) := by rw [hp]; exact h1
      simp only [List.map_cons, if_pos hp]
      rw [lookupVal_cons, lookupVal_cons, if_neg h1, if_neg h2]
      exact lookupVal_overwrite_ne k k2 v h t
    · simp only [List.map_cons, if_neg hp]
      rw [lookupVal_cons, lookupVal_cons]
      by_cases hp2 : p.1 = k2
      · rw [if_pos hp2, if_pos hp2]
      · rw [if_neg hp2, if_neg hp2]
        exact lookupVal_overwrite_ne k k2 v h t

theorem lookupVal_append_ne (k k2 : String) (v : Val) (h : k2 ≠ k) :
    ∀ r : Row, lookupVal (r ++ [(k, v)]) k2 = lookupVal r k2
  | [] => by
    rw [List.nil_append, lookupVal_cons, if_neg (fun hc => h hc.symm)]
  | p :: t => by
    rw [List.cons_append, lookupVal_cons, lookupVal_cons]
    by_cases hp2 : p.1 = k2
    · rw [if_pos hp2, if_pos hp2]
    · rw [if_neg hp2, if_neg hp2]
      exact lookupVal_append_ne k k2 v h t

theorem lookupVal_setPair_ne (k k2 : String) (v : Val) (r : Row) (h : k2 ≠ k) :
    lookupVal (setPair k v r) k2 = lookupVal r k2 := by
  rw [setPair]
  split
  · exact lookupVal_overwrite_ne k k2 v h r
  · exact lookupVal_append_ne k k2 v h r

/-! ### Blob container state

The container is a finite map from blob path to an abstract byte-content
identifier, as an association list in listing order.  The operations are
the storage capabilities the source consumes: existence/lookup, upload
with overwrite, delete, and server-side copy. -/

/-- The container: blob name paired with abstract content, in listing
order. -/

theorem lookupS_cons (b : String × Nat) (t : Store) (q : String) :
    lookupS (b :: t) q = if b.1 = q then some b.2 else lookupS t q := by
  by_cases h : b.1 = q
  · rw [lookupS, List.find?_cons_of_pos _ (by simpa using h), if_pos h]
    rfl
  · rw [lookupS, List.find?_cons_of_neg _ (by simpa using h), if_neg h]
    rfl

theorem lookupS_filter (p q : String) :
    ∀ st : Store, lookupS (st.filter (fun b => b.1 ≠ p)) q =
      if q = p then none else lookupS st q
  | [] => by
    rw [List.filter_nil]
    split <;> rfl
  | b :: t => by
    by_cases hbp : b.1 = p
    · rw [List.filter_cons_of_neg (by simpa using hbp),
        lookupS_filter p q t, lookupS_cons]
      by_cases hq : q = p
      · rw [if_pos hq, if_pos hq]
      · rw [if_neg hq, if_neg hq, if_neg (fun hc : b.1 = q => hq (hc ▸ hbp))]
    · rw [List.filter_cons_of_pos (by simpa using hbp), lookupS_cons, lookupS_cons]
      by_cases hbq : b.1 = q
      · rw [if_pos hbq, if_neg (fun hqp : q = p => hbp (hbq.trans hqp)), if_pos hbq]
      · rw [if_neg hbq, if_neg hbq, lookupS_filter p q t]

theorem lookupS_uploadB (st : Store) (p : String) (v : Nat) (q : String) :
    lookupS (uploadB st p v) q = if q = p then some v else lookupS st q := by
  rw [uploadB, lookupS_cons, lookupS_filter]
  by_cases hq : p = q
  · rw [if_pos hq, if_pos hq.symm]
  · have hq2 : ¬(q = p) := fun hc => hq hc.symm
    rw [if_neg hq, if_neg hq2, if_neg hq2]

theorem lookupS_deleteB (st : Store) (p q : String) :
    lookupS (deleteB st p) q = if q = p then none else lookupS st q := by
  rw [deleteB, lookupS_filter]

theorem hasPat_infix_iff (p0 p1 : Char) :
    ∀ l : List Char, hasPat p0 p1 l = true ↔ [p0, p1] <:+: l
  | [] => by simp [hasPat]
  | [c] => by
    rw [hasPat]
    constructor
    · intro h
      exact absurd h (by simp)
    · intro h
      have hle := h.length_le
      simp at hle
  | c0 :: c1 :: rest => by
    rw [hasPat, Bool.or_eq_true]
    constructor
    · rintro (hp | hp)
      · rw [Bool.and_eq_true, decide_eq_true_eq, decide_eq_true_eq] at hp
        obtain ⟨rfl, rfl⟩ := hp
        exact ⟨[], rest, by simp⟩
      · exact List.infix_cons ((hasPat_infix_iff p0 p1 (c1 :: rest)).mp hp)
    · intro h
      rcases List.infix_cons_iff.mp h with hpre | hinf
      · left
        obtain ⟨t2, ht⟩ := hpre
        simp only [List.cons_append, List.nil_append, List.cons.injEq] at ht
        simp [ht.1, ht.2.1]
      · right
        exact (hasPat_infix_iff p0 p1 (c1 :: rest)).mpr hinf

theorem hasPat_false_iff (p0 p1 : Char) (l : List Char) :
    hasPat p0 p1 l = false ↔ ¬ [p0, p1] <:+: l :=
  Bool.eq_false_iff.trans (not_congr (hasPat_infix_iff p0 p1 l))

theorem corruptT_data : corruptT.data = ['Ð', '¢'] := by decide

theorem corruptK_data : corruptK.data = ['Ð', 'š'] := by decide

/-- Claim C8: the normalization's substitution table acts as literal
substring replacement across text.  For every string: a string that
contains neither corrupted pattern passes through unchanged; after the
repair, no occurrence of `"Ð¢"` and no occurrence of `"Ðš"` remains (every
occurrence was replaced); and on the patterns themselves the repair
produces exactly `"T"` and `"K"`. -/
theorem c8_literal_substitution (s : String) :
    (¬ corruptT.data <:+: s.data → ¬ corruptK.data <:+: s.data → repl s = s)
    ∧ ¬ corruptT.data <:+: (repl s).data
    ∧ ¬ corruptK.data <:+: (repl s).data
    ∧ repl corruptT = "T" ∧ repl corruptK = "K" := by
  refine ⟨?_, ?_, ?_, by decide, by decide⟩
  · intro h1 h2
    rw [corruptT_data] at h1
    rw [corruptK_data] at h2
    apply str_ext
    show replL s.data = s.data
    rw [replL, rep2_pass _ _ _ _ ((hasPat_false_iff _ _ _).mpr h1),
      rep2_pass _ _ _ _ ((hasPat_false_iff _ _ _).mpr h2)]
  · rw [corruptT_data, ← hasPat_false_iff]
    show hasPat 'Ð' '¢' (replL s.data) = false
    rw [replL]
    exact rep2_preserve_absent 'Ð' 'š' 'K' 'Ð' '¢' (by decide) (by decide) _
      (rep2_no_leftover 'Ð' '¢' 'T' (by decide) (by decide) s.data)
  · rw [corruptK_data, ← hasPat_false_iff]
    show hasPat 'Ð' 'š' (replL s.data) = false
    rw [replL]
    exact rep2_no_leftover 'Ð' 'š' 'K' (by decide) (by decide) _

/-- Witness for C8: the pass-through conjunct applied at a concrete
clean string. -/
theorem c8_witness : repl "DATA 42" = "DATA 42" :=
  (c8_literal_substitution "DATA 42").1
    (by rw [corruptT_data]; decide) (by rw [corruptK_data]; decide)

/-- Claim C4: in every normalized record, the `Image_link` field equals
`/<container>/DATASET/<id>/<id>.png` built from that record's final
`DATASET_ID` value and the container name (assumed itself free of the
corruption patterns, i.e. fixed by the repair). -/
theorem c4_image_link (container ts : String) (email : Option String) (df : DF)
    (recs : List Row) (r : Row) (x : String)
    (hok : normDF container ts email df = Except.ok recs)
    (hr : r ∈ recs)
    (hid : lookupVal r "DATASET_ID" = some (some x))
    (hcont : repl container = container) :
    lookupVal r "Image_link" = some (some (mkLink container x)) := by
  rw [normDF] at hok
  simp only at hok
  split at hok
  case isFalse => exact absurd hok (by simp)
  case isTrue =>
    have hrecs := Except.ok.inj hok
    rw [← hrecs] at hr
    obtain ⟨r3, hr3, rfl⟩ := List.mem_map.mp hr
    obtain ⟨r2, hr2, rfl⟩ := List.mem_map.mp hr3
    rw [lookupVal_map_val] at hid ⊢
    rw [lookupVal_setPair_self]
    rw [lookupVal_setPair_ne _ _ _ _ (by decide)] at hid
    cases hlv : lookupVal r2 "DATASET_ID" with
    | none =>
      rw [hlv] at hid
      exact absurd hid (by simp)
    | some v =>
      rw [hlv] at hid
      cases v with
      | none => exact absurd hid (by simp [replVal])
      | some x1 =>
        have hx1 : repl x1 = x := by
          have h2 := Option.some.inj hid
          simpa [replVal] using h2
        simp only [Option.getD_some, Option.map_some', replVal, pyStr]
        rw [repl_mkLink, hcont, hx1]

/-- Witness for C4: the image link of a concrete normalized record. -/
theorem c4_witness :
    lookupVal [("DATASET_ID", some "i1"), ("Create_date", some "ts"),
      ("Last_modified", some "ts"), ("Created_by", some "u"),
      ("Image_link", some "/cont/DATASET/i1/i1.png")] "Image_link"
      = some (some (mkLink "cont" "i1")) :=
  c4_image_link "cont" "ts" (some "u")
    ⟨["OldName"], [[("OldName", some "i1")]]⟩
    [[("DATASET_ID", some "i1"), ("Create_date", some "ts"),
      ("Last_modified", some "ts"), ("Created_by", some "u"),
      ("Image_link", some "/cont/DATASET/i1/i1.png")]]
    [("DATASET_ID", some "i1"), ("Create_date", some "ts"),
      ("Last_modified", some "ts"), ("Created_by", some "u"),
      ("Image_link", some "/cont/DATASET/i1/i1.png")]
    "i1" (by rfl) (by decide) (by decide) (by decide)

theorem isPrefixB_refl : ∀ n : List Char, isPrefixB n n = true
  | [] => rfl
  | c :: t => by simp [isPrefixB, isPrefixB_refl t]

theorem isSubstrB_self (n : List Char) : isSubstrB n n = true := by
  cases n with
  | nil => rfl
  | cons c t =>
    rw [isSubstrB]
    simp [isPrefixB_refl]

theorem isSubstrB_cons (n : List Char) (c : Char) (h2 : List Char)
    (h : isSubstrB n h2 = true) : isSubstrB n (c :: h2) = true := by
  rw [isSubstrB]
  simp [h]

theorem isSubstrB_append_left (n : List Char) :
    ∀ a : List Char, isSubstrB n (a ++ n) = true
  | [] => by
    rw [List.nil_append]
    exact isSubstrB_self n
  | c :: t => by
    rw [List.cons_append]
    exact isSubstrB_cons _ _ _ (isSubstrB_append_left n t)

/-- Claim C3: for any identifier matching no listed blob — and in
particular for any falsy (absent or empty) identifier, which matches
nothing — the handler answers 404 with a body naming the identifier, the
container is untouched, no image event happens, and the SQL append is
never attempted.  The final conjunct is the empty/absent case: a falsy
identifier fails the match test against every blob name. -/
theorem c3_not_found (env : Env)
    (h : ∀ p ∈ env.store, (truthy env.email && emailIn env.email p.1) = false) :
    (main env = Except.ok ⟨⟨404, "No file found for user " ++ pyStr env.email⟩,
        env.store, [], false, []⟩
      ∧ isSubstrB (pyStr env.email).data
          ("No file found for user " ++ pyStr env.email).data = true)
    ∧ (∀ email : Option String, truthy email = false →
        ∀ nm : String, (truthy email && emailIn email nm) = false) := by
  refine ⟨⟨?_, ?_⟩, ?_⟩
  · have hloc : locateBlob env.email env.store = none := by
      rw [locateBlob]
      apply List.find?_eq_none.mpr
      intro p hp
      have hmem : p ∈ env.store := List.mem_of_mem_filter hp
      simp [h p hmem]
    unfold main
    rw [hloc]
  · rw [String.data_append]
    exact isSubstrB_append_left _ _
  · intro email hf nm
    rw [hf, Bool.false_and]

/-- Witness for C3: a request with an absent identifier against a
non-empty container. -/
theorem c3_witness :
    main ⟨none, "cont", "ts", true, [("DATASET/Current_a.xlsx", 0)],
        fun _ => ⟨⟨[], []⟩, []⟩⟩ =
      Except.ok ⟨⟨404, "No file found for user " ++ pyStr none⟩,
        [("DATASET/Current_a.xlsx", 0)], [], false, []⟩ :=
  (c3_not_found ⟨none, "cont", "ts", true, [("DATASET/Current_a.xlsx", 0)],
      fun _ => ⟨⟨[], []⟩, []⟩⟩ (by decide)).1.1

/-- Claim C2: when the relational append fails, the handler answers 500
with body `"Database upload failed."`, the container is untouched, no
image event happens, nothing is appended; and any run with at least one
image event had a successful append (image work starts only after it). -/
theorem c2_load_failure :
    (∀ env : Env, ∀ out : Outcome, main env = Except.ok out →
      out.dbAttempted = true → env.dbOk = false →
      out.resp = ⟨500, "Database upload failed."⟩ ∧ out.events = []
        ∧ out.store = env.store ∧ out.rows = [])
    ∧ (∀ env : Env, ∀ out : Outcome, main env = Except.ok out →
      out.events ≠ [] → env.dbOk = true) := by
  constructor
  · intro env out h hatt hdb
    unfold main at h
    cases hloc : locateBlob env.email env.store with
    | none =>
      simp only [hloc] at h
      have hout := Except.ok.inj h
      rw [← hout] at hatt
      exact absurd hatt (by simp)
    | some blob =>
      simp only [hloc] at h
      cases hnorm : normDF env.container env.now env.email (env.parse blob.2).sheet1 with
      | error e =>
        simp only [hnorm] at h
        exact absurd h (by simp)
      | ok records =>
        simp only [hnorm] at h
        rw [hdb] at h
        simp only [Bool.false_eq_true, if_false] at h
        have hout := Except.ok.inj h
        rw [← hout]
        exact ⟨rfl, rfl, rfl, rfl⟩
  · intro env out h hev
    unfold main at h
    cases hloc : locateBlob env.email env.store with
    | none =>
      simp only [hloc] at h
      have hout := Except.ok.inj h
      rw [← hout] at hev
      exact absurd rfl hev
    | some blob =>
      simp only [hloc] at h
      cases hnorm : normDF env.container env.now env.email (env.parse blob.2).sheet1 with
      | error e =>
        simp only [hnorm] at h
        exact absurd h (by simp)
      | ok records =>
        simp only [hnorm] at h
        cases hdb : env.dbOk with
        | true => rfl
        | false =>
          rw [hdb] at h
          simp only [Bool.false_eq_true, if_false] at h
          have hout := Except.ok.inj h
          rw [← hout] at hev
          exact absurd rfl hev

/-- Witness for C2: a concrete run whose append fails answers 500 with no
image events. -/
theorem c2_witness :
    (main ⟨some "a", "cont", "ts", false, [("DATASET/Current_a.xlsx", 0)],
        fun _ => ⟨⟨["OldName"], [[("OldName", some "i1")]]⟩, []⟩⟩).map
          (fun out => (out.resp, out.events)) =
      Except.ok (⟨500, "Database upload failed."⟩, []) := by
  have h := (c2_load_failure).1
    ⟨some "a", "cont", "ts", false, [("DATASET/Current_a.xlsx", 0)],
      fun _ => ⟨⟨["OldName"], [[("OldName", some "i1")]]⟩, []⟩⟩
    ⟨⟨500, "Database upload failed."⟩, [("DATASET/Current_a.xlsx", 0)], [], true, []⟩
    (by rfl) rfl rfl
  rw [show main ⟨some "a", "cont", "ts", false, [("DATASET/Current_a.xlsx", 0)],
      fun _ => ⟨⟨["OldName"], [[("OldName", some "i1")]]⟩, []⟩⟩ =
    Except.ok ⟨⟨500, "Database upload failed."⟩,
      [("DATASET/Current_a.xlsx", 0)], [], true, []⟩ from rfl]
  rfl

/-- Claim C10: a located workbook whose `Sheet1` has neither an `OldName`
nor a `DATASET_ID` column makes the invocation crash with an unhandled
error during normalization (the `KeyError` of line 74), so the run
produces no outcome at all — neither the 404 body nor the 500 body, and
no append or image work. -/
theorem c10_missing_columns (env : Env) (nm : String) (ct : Nat)
    (hloc : locateBlob env.email env.store = some (nm, ct))
    (h1 : "OldName" ∉ (env.parse ct).sheet1.header)
    (h2 : "DATASET_ID" ∉ (env.parse ct).sheet1.header) :
    main env = Except.error () := by
  have hhdr : "DATASET_ID" ∉ normHeader (env.parse ct).sheet1.header := by
    intro hmem
    rw [normHeader] at hmem
    obtain ⟨c, hc, hcEq⟩ := List.mem_map.mp hmem
    have hcMem : c ∈ (env.parse ct).sheet1.header := List.mem_of_mem_filter hc
    by_cases hcOld : c = "OldName"
    · exact h1 (hcOld ▸ hcMem)
    · rw [if_neg hcOld] at hcEq
      exact h2 (hcEq ▸ hcMem)
  have hnorm : normDF env.container env.now env.email (env.parse ct).sheet1 =
      Except.error () := by
    rw [normDF]
    simp only [if_neg hhdr]
  unfold main
  rw [hloc]
  simp only [hnorm]

/-- Witness for C10: a concrete located workbook with neither column
crashes. -/
theorem c10_witness :
    main ⟨some "a", "cont", "ts", true, [("DATASET/Current_a.xlsx", 0)],
        fun _ => ⟨⟨["X"], [[("X", some "1")]]⟩, []⟩⟩ = Except.error () :=
  c10_missing_columns
    ⟨some "a", "cont", "ts", true, [("DATASET/Current_a.xlsx", 0)],
      fun _ => ⟨⟨["X"], [[("X", some "1")]]⟩, []⟩⟩
    "DATASET/Current_a.xlsx" 0 (by rfl) (by decide) (by decide)

theorem targetPath_ne_archivePath (s ts : String) :
    targetPath s ≠ archivePath s ts := by
  intro h
  have hlen := congrArg String.length h
  rw [targetPath, archivePath] at hlen
  simp only [String.length_append] at hlen
  have e1 : ("DATASET/" : String).length = 8 := rfl
  have e2 : ("/" : String).length = 1 := rfl
  have e3 : (".png" : String).length = 4 := rfl
  have e4 : ("/Archive/" : String).length = 9 := rfl
  have e5 : ("_" : String).length = 1 := rfl
  rw [e1, e2, e3, e4, e5] at hlen
  omega

theorem attempt_event_fields (sheetT ts : String) (i : Nat) (c : Cell) (st : Store) :
    (attempt sheetT ts i c st).2.sheet = sheetT
    ∧ (attempt sheetT ts i c st).2.rowIdx = i
    ∧ (attempt sheetT ts i c st).2.coordinate = c.coordinate
    ∧ (attempt sheetT ts i c st).2.target = targetPath sheetT
    ∧ (attempt sheetT ts i c st).2.bytes = c.imageBytes
    ∧ ((attempt sheetT ts i c st).2.archived = none
       ∨ (attempt sheetT ts i c st).2.archived = some (archivePath sheetT ts)) := by
  simp only [attempt]
  repeat' split
  all_goals exact ⟨rfl, rfl, rfl, rfl, rfl, by simp⟩

theorem attempt_published_of_none (sheetT ts : String) (i : Nat) (c : Cell)
    (st : Store) (h : c.failAt = none) :
    (attempt sheetT ts i c st).2.published = true := by
  simp only [attempt, h]
  cases lookupS st (targetPath sheetT) <;> simp

theorem processRow_events (sheetT ts : String) (i : Nat) :
    ∀ (cells : List Cell) (st : Store) (e : Event),
      e ∈ (processRow sheetT ts i st cells).2 →
      excludedCells.contains e.coordinate = false
      ∧ e.sheet = sheetT
      ∧ e.rowIdx = i
      ∧ e.target = targetPath sheetT
      ∧ (e.archived = none ∨ e.archived = some (archivePath sheetT ts))
  | [], st, e, h => absurd h (by simp [processRow])
  | c :: cs, st, e, h => by
    rw [processRow] at h
    by_cases helig : (c.hasImage && !(excludedCells.contains c.coordinate)) = true
    · rw [if_pos helig] at h
      have hcontains : excludedCells.contains c.coordinate = false := by
        cases hcc : excludedCells.contains c.coordinate
        · rfl
        · rw [hcc] at helig
          simp at helig
      obtain ⟨f1, f2, f3, f4, f5, f6⟩ := attempt_event_fields sheetT ts i c st
      split at h
      · rw [List.mem_singleton] at h
        subst h
        exact ⟨by rw [f3]; exact hcontains, f1, f2, f4, f6⟩
      · rcases List.mem_cons.mp h with rfl | hmem
        · exact ⟨by rw [f3]; exact hcontains, f1, f2, f4, f6⟩
        · exact processRow_events sheetT ts i cs _ e hmem
    · rw [if_neg helig] at h
      exact processRow_events sheetT ts i cs st e h

theorem processRowsFrom_events (sheetT ts : String) :
    ∀ (rows : List (List Cell)) (i : Nat) (st : Store) (e : Event),
      e ∈ (processRowsFrom sheetT ts i st rows).2 →
      excludedCells.contains e.coordinate = false
      ∧ e.sheet = sheetT
      ∧ e.target = targetPath sheetT
      ∧ (e.archived = none ∨ e.archived = some (archivePath sheetT ts))
  | [], i, st, e, h => absurd h (by simp [processRowsFrom])
  | r :: rs, i, st, e, h => by
    rw [processRowsFrom] at h
    rcases List.mem_append.mp h with hmem | hmem
    · obtain ⟨g1, g2, _, g4, g5⟩ := processRow_events sheetT ts i r st e hmem
      exact ⟨g1, g2, g4, g5⟩
    · exact processRowsFrom_events sheetT ts rs (i + 1) _ e hmem

theorem processSheets_events (ts : String) :
    ∀ (sheets : List Sheet) (st : Store) (e : Event),
      e ∈ (processSheets ts st sheets).2 →
      excludedCells.contains e.coordinate = false
      ∧ e.sheet ∈ sheets.map Sheet.title
      ∧ e.target = targetPath e.sheet
      ∧ (e.archived = none ∨ e.archived = some (archivePath e.sheet ts))
  | [], st, e, h => absurd h (by simp [processSheets])
  | s :: ss, st, e, h => by
    rw [processSheets] at h
    rcases List.mem_append.mp h with hmem | hmem
    · obtain ⟨g1, g2, g3, g4⟩ :=
        processRowsFrom_events s.title ts s.rows 0 st e hmem
      refine ⟨g1, by rw [g2]; simp, by rw [g3, g2], ?_⟩
      rw [g2]
      exact g4
    · obtain ⟨g1, g2, g3, g4⟩ := processSheets_events ts ss _ e hmem
      refine ⟨g1, ?_, g3, g4⟩
      rw [List.map_cons]
      exact List.mem_cons_of_mem _ g2

/-- Claim C7: image-pipeline failures are recovered locally.  First
conjunct: whenever the run reaches the image phase (append attempted and
successful), whatever failures the cells inject, the response is 200 with
the success body.  Second conjunct: a failed attempt on an eligible cell
does not stop the row scan — processing continues with the remaining
cells, the failed attempt merely logged as an event.  Third conjunct:
processing always continues with the remaining sheets. -/
theorem c7_failures_recovered :
    (∀ env : Env, ∀ out : Outcome, main env = Except.ok out →
      out.dbAttempted = true → env.dbOk = true → out.resp = ⟨200, successBody⟩)
    ∧ (∀ (sheetT ts : String) (i : Nat) (st : Store) (c : Cell) (cs : List Cell),
        (c.hasImage && !(excludedCells.contains c.coordinate)) = true →
        (attempt sheetT ts i c st).2.published = false →
        processRow sheetT ts i st (c :: cs) =
          ((processRow sheetT ts i (attempt sheetT ts i c st).1 cs).1,
            (attempt sheetT ts i c st).2 ::
              (processRow sheetT ts i (attempt sheetT ts i c st).1 cs).2))
    ∧ (∀ (ts : String) (st : Store) (s : Sheet) (ss : List Sheet),
        processSheets ts st (s :: ss) =
          ((processSheets ts (processSheet ts st s).1 ss).1,
            (processSheet ts st s).2 ++
              (processSheets ts (processSheet ts st s).1 ss).2)) := by
  refine ⟨?_, ?_, ?_⟩
  · intro env out h hatt hdb
    unfold main at h
    cases hloc : locateBlob env.email env.store with
    | none =>
      simp only [hloc] at h
      have hout := Except.ok.inj h
      rw [← hout] at hatt
      exact absurd hatt (by simp)
    | some blob =>
      simp only [hloc] at h
      cases hnorm : normDF env.container env.now env.email (env.parse blob.2).sheet1 with
      | error e =>
        simp only [hnorm] at h
        exact absurd h (by simp)
      | ok records =>
        simp only [hnorm] at h
        rw [hdb] at h
        simp only [if_true] at h
        have hout := Except.ok.inj h
        rw [← hout]
  · intro sheetT ts i st c cs helig hpub
    rw [processRow, if_pos helig, if_neg (by rw [hpub]; exact Bool.false_ne_true)]
  · intro ts st s ss
    rfl

/-- Witness for C7: a concrete row whose first eligible cell fails at
upload continues scanning with the next cell. -/
theorem c7_witness :
    processRow "Q3" "ts" 0 [] [⟨"B2", true, 7, some 4⟩, ⟨"C2", true, 8, none⟩] =
      ((processRow "Q3" "ts" 0 (attempt "Q3" "ts" 0 ⟨"B2", true, 7, some 4⟩ []).1
          [⟨"C2", true, 8, none⟩]).1,
        (attempt "Q3" "ts" 0 ⟨"B2", true, 7, some 4⟩ []).2 ::
          (processRow "Q3" "ts" 0 (attempt "Q3" "ts" 0 ⟨"B2", true, 7, some 4⟩ []).1
            [⟨"C2", true, 8, none⟩]).2) :=
  (c7_failures_recovered).2.1 "Q3" "ts" 0 [] ⟨"B2", true, 7, some 4⟩
    [⟨"C2", true, 8, none⟩] (by decide) (by decide)

/-- Claim C6: the image extractor scans exactly the worksheets beyond the
first four, and never extracts from an excluded coordinate.  First
conjunct: every event of any processed sheet list has a non-excluded
coordinate and belongs to a listed sheet (there is no hypothesis that the
cell lacks an image, so this covers excluded cells that do contain one).
Second conjunct: the image phase ignores the first four sheets entirely —
they can be replaced arbitrarily.  Third conjunct: in a full run, every
event belongs to a sheet beyond the first four of the located workbook. -/
theorem c6_sheet_range_and_exclusions :
    (∀ (ts : String) (st : Store) (sheets : List Sheet),
      ∀ e ∈ (processSheets ts st sheets).2,
        excludedCells.contains e.coordinate = false
        ∧ e.sheet ∈ sheets.map Sheet.title)
    ∧ (∀ (ts : String) (st : Store) (a1 a2 a3 a4 : Sheet) (rest : List Sheet),
        imagePhase ts st (a1 :: a2 :: a3 :: a4 :: rest) = processSheets ts st rest)
    ∧ (∀ (env : Env) (out : Outcome) (nm : String) (ct : Nat),
        main env = Except.ok out →
        locateBlob env.email env.store = some (nm, ct) →
        ∀ e ∈ out.events,
          e.sheet ∈ ((env.parse ct).sheets.drop 4).map Sheet.title) := by
  refine ⟨?_, ?_, ?_⟩
  · intro ts st sheets e h
    obtain ⟨g1, g2, _, _⟩ := processSheets_events ts sheets st e h
    exact ⟨g1, g2⟩
  · intro ts st a1 a2 a3 a4 rest
    rfl
  · intro env out nm ct h hloc hev
    intro hmem
    unfold main at h
    simp only [hloc] at h
    cases hnorm : normDF env.container env.now env.email (env.parse ct).sheet1 with
    | error e2 =>
      simp only [hnorm] at h
      exact absurd h (by simp)
    | ok records =>
      simp only [hnorm] at h
      cases hdb : env.dbOk with
      | false =>
        rw [hdb] at h
        simp only [Bool.false_eq_true, if_false] at h
        have hout := Except.ok.inj h
        rw [← hout] at hmem
        exact absurd hmem (by simp)
      | true =>
        rw [hdb] at h
        simp only [if_true] at h
        have hout := Except.ok.inj h
        rw [← hout] at hmem
        exact (processSheets_events env.now ((env.parse ct).sheets.drop 4)
          env.store hev hmem).2.1

/-- Witness for C6: a processed sheet with an image in excluded cell `A1`
and one in `B2` yields only the `B2` event, whose coordinate is not
excluded. -/
theorem c6_witness :
    excludedCells.contains
      ((processSheets "ts" [] [⟨"Q3", [[⟨"A1", true, 5, none⟩,
        ⟨"B2", true, 7, none⟩]]⟩]).2.headD
          ⟨"", 0, "A1", "", 0, false, false, none⟩).coordinate = false := by
  have h := (c6_sheet_range_and_exclusions).1 "ts" []
    [⟨"Q3", [[⟨"A1", true, 5, none⟩, ⟨"B2", true, 7, none⟩]]⟩]
    ((processSheets "ts" [] [⟨"Q3", [[⟨"A1", true, 5, none⟩,
      ⟨"B2", true, 7, none⟩]]⟩]).2.headD
        ⟨"", 0, "A1", "", 0, false, false, none⟩)
    (by decide)
  exact h.1

theorem attempt_reduce_some (sheetT ts : String) (i : Nat) (c : Cell) (st : Store)
    (old : Nat) (h : c.failAt = none)
    (hex : lookupS st (targetPath sheetT) = some old) :
    attempt sheetT ts i c st =
      (uploadB (deleteB (uploadB st (archivePath sheetT ts) old) (targetPath sheetT))
          (targetPath sheetT) c.imageBytes,
        ⟨sheetT, i, c.coordinate, targetPath sheetT, c.imageBytes, true, true,
          some (archivePath sheetT ts)⟩) := by
  simp only [attempt, h, copyB, hex]
  simp

theorem attempt_reduce_none (sheetT ts : String) (i : Nat) (c : Cell) (st : Store)
    (h : c.failAt = none)
    (hex : lookupS st (targetPath sheetT) = none) :
    attempt sheetT ts i c st =
      (uploadB st (targetPath sheetT) c.imageBytes,
        ⟨sheetT, i, c.coordinate, targetPath sheetT, c.imageBytes, true, true, none⟩) := by
  simp only [attempt, h, hex]
  simp

theorem normDF_create_date (container ts : String) (email : Option String) (df : DF)
    (recs : List Row) (hok : normDF container ts email df = Except.ok recs) :
    ∀ r ∈ recs, lookupVal r "Create_date" = some (some (repl ts)) := by
  rw [normDF] at hok
  simp only at hok
  split at hok
  case isFalse => exact absurd hok (by simp)
  case isTrue =>
    have hrecs := Except.ok.inj hok
    rw [← hrecs]
    intro r hr
    obtain ⟨r3, hr3, rfl⟩ := List.mem_map.mp hr
    obtain ⟨r2, hr2, rfl⟩ := List.mem_map.mp hr3
    obtain ⟨row0, hrow0, rfl⟩ := List.mem_map.mp hr2
    rw [lookupVal_map_val, lookupVal_setPair_ne _ _ _ _ (by decide), addMeta,
      lookupVal_setPair_ne _ _ _ _ (by decide),
      lookupVal_setPair_ne _ _ _ _ (by decide), lookupVal_setPair_self]
    simp [replVal]

/-- Claim C1: archive-before-overwrite.  First conjunct, per publish with
no injected failure: when the target path holds an object, afterwards the
archive path (timestamp-suffixed) holds exactly the old object, the
target path holds the newly uploaded bytes, every other path is
untouched, and the only possibly-new path in the container is the archive
path (so exactly one new archive object when the archive path was free);
when the target path holds nothing, no archive object is created and only
the target path changes.  Second conjunct: in a full run every archive
path recorded by an event carries the run's single request timestamp —
the same `current_time` that the third conjunct shows is the `Create_date`
of every appended row. -/
theorem c1_archive_before_overwrite :
    (∀ (sh ts : String) (i : Nat) (c : Cell) (st : Store), c.failAt = none →
      (∀ old : Nat, lookupS st (targetPath sh) = some old →
        lookupS (attempt sh ts i c st).1 (archivePath sh ts) = some old
        ∧ lookupS (attempt sh ts i c st).1 (targetPath sh) = some c.imageBytes
        ∧ (attempt sh ts i c st).2.archived = some (archivePath sh ts)
        ∧ (∀ p : String, p ≠ targetPath sh → p ≠ archivePath sh ts →
            lookupS (attempt sh ts i c st).1 p = lookupS st p)
        ∧ (∀ p : String, lookupS st p = none →
            lookupS (attempt sh ts i c st).1 p ≠ none → p = archivePath sh ts))
      ∧ (lookupS st (targetPath sh) = none →
        lookupS (attempt sh ts i c st).1 (targetPath sh) = some c.imageBytes
        ∧ (attempt sh ts i c st).2.archived = none
        ∧ (∀ p : String, p ≠ targetPath sh →
            lookupS (attempt sh ts i c st).1 p = lookupS st p)))
    ∧ (∀ (env : Env) (out : Outcome), main env = Except.ok out →
        ∀ e ∈ out.events, e.archived = none
          ∨ e.archived = some (archivePath e.sheet env.now))
    ∧ (∀ (env : Env) (out : Outcome), main env = Except.ok out →
        ∀ r ∈ out.rows, lookupVal r "Create_date" = some (some (repl env.now))) := by
  refine ⟨?_, ?_, ?_⟩
  · intro sh ts i c st hfail
    have hne : targetPath sh ≠ archivePath sh ts := targetPath_ne_archivePath sh ts
    have hne2 : ¬(archivePath sh ts = targetPath sh) := fun hc => hne hc.symm
    constructor
    · intro old hex
      rw [attempt_reduce_some sh ts i c st old hfail hex]
      refine ⟨?_, ?_, rfl, ?_, ?_⟩
      · rw [lookupS_uploadB, if_neg hne2, lookupS_deleteB, if_neg hne2,
          lookupS_uploadB, if_pos rfl]
      · rw [lookupS_uploadB, if_pos rfl]
      · intro p hp1 hp2
        rw [lookupS_uploadB, if_neg hp1, lookupS_deleteB, if_neg hp1,
          lookupS_uploadB, if_neg hp2]
      · intro p hpnone hpsome
        by_cases hp1 : p = targetPath sh
        · rw [hp1, hex] at hpnone
          exact absurd hpnone (by simp)
        · by_cases hp2 : p = archivePath sh ts
          · exact hp2
          · rw [lookupS_uploadB, if_neg hp1, lookupS_deleteB, if_neg hp1,
              lookupS_uploadB, if_neg hp2, hpnone] at hpsome
            exact absurd rfl hpsome
    · intro hex
      rw [attempt_reduce_none sh ts i c st hfail hex]
      refine ⟨?_, rfl, ?_⟩
      · rw [lookupS_uploadB, if_pos rfl]
      · intro p hp1
        rw [lookupS_uploadB, if_neg hp1]
  · intro env out h e he
    unfold main at h
    cases hloc : locateBlob env.email env.store with
    | none =>
      simp only [hloc] at h
      have hout := Except.ok.inj h
      rw [← hout] at he
      exact absurd he (by simp)
    | some blob =>
      simp only [hloc] at h
      cases hnorm : normDF env.container env.now env.email (env.parse blob.2).sheet1 with
      | error e2 =>
        simp only [hnorm] at h
        exact absurd h (by simp)
      | ok records =>
        simp only [hnorm] at h
        cases hdb : env.dbOk with
        | false =>
          rw [hdb] at h
          simp only [Bool.false_eq_true, if_false] at h
          have hout := Except.ok.inj h
          rw [← hout] at he
          exact absurd he (by simp)
        | true =>
          rw [hdb] at h
          simp only [if_true] at h
          have hout := Except.ok.inj h
          rw [← hout] at he
          obtain ⟨_, _, _, g4⟩ := processSheets_events env.now
            ((env.parse blob.2).sheets.drop 4) env.store e he
          exact g4
  · intro env out h r hr
    unfold main at h
    cases hloc : locateBlob env.email env.store with
    | none =>
      simp only [hloc] at h
      have hout := Except.ok.inj h
      rw [← hout] at hr
      exact absurd hr (by simp)
    | some blob =>
      simp only [hloc] at h
      cases hnorm : normDF env.container env.now env.email (env.parse blob.2).sheet1 with
      | error e2 =>
        simp only [hnorm] at h
        exact absurd h (by simp)
      | ok records =>
        simp only [hnorm] at h
        cases hdb : env.dbOk with
        | false =>
          rw [hdb] at h
          simp only [Bool.false_eq_true, if_false] at h
          have hout := Except.ok.inj h
          rw [← hout] at hr
          exact absurd hr (by simp)
        | true =>
          rw [hdb] at h
          simp only [if_true] at h
          have hout := Except.ok.inj h
          rw [← hout] at hr
          exact normDF_create_date env.container env.now env.email
            (env.parse blob.2).sheet1 records hnorm r hr

/-- Witness for C1: publishing bytes `9` over an existing target holding
`5` archives the `5` and leaves `9` at the target. -/
theorem c1_witness :
    lookupS (attempt "S" "T" 0 ⟨"B2", true, 9, none⟩ [(targetPath "S", 5)]).1
        (archivePath "S" "T") = some 5
    ∧ lookupS (attempt "S" "T" 0 ⟨"B2", true, 9, none⟩ [(targetPath "S", 5)]).1
        (targetPath "S") = some 9 := by
  have h := ((c1_archive_before_overwrite).1 "S" "T" 0 ⟨"B2", true, 9, none⟩
    [(targetPath "S", 5)] rfl).1 5 (by decide)
  exact ⟨h.1, h.2.1⟩

theorem dropLast_cons_mem {α : Type} (x : α) (l : List α) (e : α)
    (h : e ∈ (x :: l).dropLast) : e = x ∨ e ∈ l.dropLast := by
  cases l with
  | nil => simp at h
  | cons d t =>
    rw [show (x :: d :: t).dropLast = x :: (d :: t).dropLast from rfl] at h
    rcases List.mem_cons.mp h with rfl | h2
    · exact Or.inl rfl
    · exact Or.inr h2

/-- Counterexample for C5: a row whose first image cell fails at the
upload step and whose second image cell succeeds yields two
`ExtractedImage`s (two successful decodes) from the same row — the scan
does not stop after the first emission, so "at most one image is
extracted per row" fails on the code. -/
theorem c5_counterexample :
    ((processRow "S" "T0" 0 []
        [⟨"A2", true, 1, some 4⟩, ⟨"B2", true, 2, none⟩]).2.filter
          (fun e => e.extracted)).length = 2
    ∧ ¬(((processRow "S" "T0" 0 []
        [⟨"A2", true, 1, some 4⟩, ⟨"B2", true, 2, none⟩]).2.filter
          (fun e => e.extracted)).length ≤ 1) := by
  exact ⟨by decide, by decide⟩

/-- Claim C5, amended: at most one image per row is successfully
*published*; after a successful upload no further cell of the row is
scanned (every event before the last is an unpublished one); when no
attempt fails, at most one image is extracted per row, and exactly one
when the row has an eligible image cell — but after a *failed* attempt
the scan continues within the same row, so a second image can be
extracted from the same row (see the counterexample). -/
theorem c5_at_most_one_publish_per_row :
    ∀ (sheetT ts : String) (i : Nat) (st : Store) (cells : List Cell),
      (∀ e ∈ (processRow sheetT ts i st cells).2.dropLast, e.published = false)
      ∧ ((processRow sheetT ts i st cells).2.filter
          (fun e => e.published)).length ≤ 1
      ∧ ((∀ c ∈ cells, c.failAt = none) →
          (processRow sheetT ts i st cells).2.length ≤ 1)
      ∧ ((∀ c ∈ cells, c.failAt = none) →
          cells.any (fun c =>
            c.hasImage && !(excludedCells.contains c.coordinate)) = true →
          (processRow sheetT ts i st cells).2.length = 1)
  | sheetT, ts, i, st, [] => by
    refine ⟨by simp [processRow], by simp [processRow], fun _ => by simp [processRow], ?_⟩
    intro _ habs
    simp at habs
  | sheetT, ts, i, st, c :: cs => by
    by_cases helig : (c.hasImage && !(excludedCells.contains c.coordinate)) = true
    · by_cases hpub : (attempt sheetT ts i c st).2.published = true
      · have hred : processRow sheetT ts i st (c :: cs) =
            ((attempt sheetT ts i c st).1, [(attempt sheetT ts i c st).2]) := by
          rw [processRow, if_pos helig, if_pos hpub]
        refine ⟨?_, ?_, fun _ => ?_, fun _ _ => ?_⟩
        · rw [hred]
          intro e he
          simp at he
        · rw [hred]
          exact le_trans (List.length_filter_le _ _) (by simp)
        · rw [hred]
          simp
        · rw [hred]
          simp
      · have hred : processRow sheetT ts i st (c :: cs) =
            ((processRow sheetT ts i (attempt sheetT ts i c st).1 cs).1,
              (attempt sheetT ts i c st).2 ::
                (processRow sheetT ts i (attempt sheetT ts i c st).1 cs).2) := by
          rw [processRow, if_pos helig, if_neg hpub]
        have hpub2 : (attempt sheetT ts i c st).2.published = false :=
          Bool.eq_false_iff.mpr hpub
        obtain ⟨ih1, ih2, _, _⟩ := c5_at_most_one_publish_per_row sheetT ts i
          (attempt sheetT ts i c st).1 cs
        refine ⟨?_, ?_, fun hall => ?_, fun hall _ => ?_⟩
        · rw [hred]
          intro e he
          rcases dropLast_cons_mem _ _ _ he with rfl | h2
          · exact hpub2
          · exact ih1 e h2
        · rw [hred]
          rw [List.filter_cons_of_neg (by simpa using hpub)]
          exact ih2
        · exact absurd (attempt_published_of_none sheetT ts i c st
            (hall c (List.mem_cons_self c cs))) hpub
        · exact absurd (attempt_published_of_none sheetT ts i c st
            (hall c (List.mem_cons_self c cs))) hpub
    · have hred : processRow sheetT ts i st (c :: cs) =
          processRow sheetT ts i st cs := by
        rw [processRow, if_neg helig]
      obtain ⟨ih1, ih2, ih3, ih4⟩ :=
        c5_at_most_one_publish_per_row sheetT ts i st cs
      refine ⟨by rw [hred]; exact ih1, by rw [hred]; exact ih2, fun hall => ?_,
        fun hall hany => ?_⟩
      · rw [hred]
        exact ih3 (fun x hx => hall x (List.mem_cons_of_mem c hx))
      · rw [hred]
        apply ih4 (fun x hx => hall x (List.mem_cons_of_mem c hx))
        rw [List.any_cons, Bool.or_eq_true] at hany
        rcases hany with hc | hcs
        · exact absurd hc helig
        · exact hcs

/-- Witness for C5 (amended): a no-failure row with one image cell
produces exactly one event. -/
theorem c5_witness :
    (processRow "S" "T" 0 [] [⟨"B2", true, 7, none⟩]).2.length = 1 :=
  (c5_at_most_one_publish_per_row "S" "T" 0 [] [⟨"B2", true, 7, none⟩]).2.2.2
    (by decide) (by decide)

theorem attempt_pair_of_none (sheetT ts : String) (i : Nat) (c : Cell)
    (st : Store) (h : c.failAt = none) :
    (lookupS (attempt sheetT ts i c st).1 (archivePath sheetT ts),
      lookupS (attempt sheetT ts i c st).1 (targetPath sheetT))
      = simStep (lookupS st (archivePath sheetT ts),
          lookupS st (targetPath sheetT)) c.imageBytes := by
  have hne2 : ¬(archivePath sheetT ts = targetPath sheetT) :=
    fun hc => targetPath_ne_archivePath sheetT ts hc.symm
  cases hex : lookupS st (targetPath sheetT) with
  | some old =>
    rw [attempt_reduce_some sheetT ts i c st old h hex]
    simp [lookupS_uploadB, lookupS_deleteB, hne2, simStep]
  | none =>
    rw [attempt_reduce_none sheetT ts i c st h hex]
    simp [lookupS_uploadB, hne2, simStep]

theorem processRow_pair (sheetT ts : String) (i : Nat) :
    ∀ (cells : List Cell) (st : Store), (∀ c ∈ cells, c.failAt = none) →
      (∀ e ∈ (processRow sheetT ts i st cells).2, e.published = true)
      ∧ (lookupS (processRow sheetT ts i st cells).1 (archivePath sheetT ts),
          lookupS (processRow sheetT ts i st cells).1 (targetPath sheetT))
        = simAT (lookupS st (archivePath sheetT ts))
            (lookupS st (targetPath sheetT))
            ((processRow sheetT ts i st cells).2.map (fun e => e.bytes))
  | [], st, _ => ⟨by simp [processRow], by simp [processRow, simAT]⟩
  | c :: cs, st, hall => by
    by_cases helig : (c.hasImage && !(excludedCells.contains c.coordinate)) = true
    · have hc := hall c (List.mem_cons_self c cs)
      have hpub := attempt_published_of_none sheetT ts i c st hc
      have hred : processRow sheetT ts i st (c :: cs) =
          ((attempt sheetT ts i c st).1, [(attempt sheetT ts i c st).2]) := by
        rw [processRow, if_pos helig, if_pos hpub]
      rw [hred]
      constructor
      · intro e he
        rw [List.mem_singleton] at he
        subst he
        exact hpub
      · simp only [List.map_cons, List.map_nil]
        rw [(attempt_event_fields sheetT ts i c st).2.2.2.2.1]
        rw [simAT, List.foldl_cons, List.foldl_nil]
        exact attempt_pair_of_none sheetT ts i c st hc
    · have hred : processRow sheetT ts i st (c :: cs) =
          processRow sheetT ts i st cs := by
        rw [processRow, if_neg helig]
      rw [hred]
      exact processRow_pair sheetT ts i cs st
        (fun x hx => hall x (List.mem_cons_of_mem c hx))

theorem processRowsFrom_pair (sheetT ts : String) :
    ∀ (rows : List (List Cell)) (i : Nat) (st : Store),
      (∀ r ∈ rows, ∀ c ∈ r, c.failAt = none) →
      (∀ e ∈ (processRowsFrom sheetT ts i st rows).2, e.published = true)
      ∧ (lookupS (processRowsFrom sheetT ts i st rows).1 (archivePath sheetT ts),
          lookupS (processRowsFrom sheetT ts i st rows).1 (targetPath sheetT))
        = simAT (lookupS st (archivePath sheetT ts))
            (lookupS st (targetPath sheetT))
            ((processRowsFrom sheetT ts i st rows).2.map (fun e => e.bytes))
  | [], i, st, _ => ⟨by simp [processRowsFrom], by simp [processRowsFrom, simAT]⟩
  | r :: rs, i, st, hall => by
    have h1 := processRow_pair sheetT ts i r st
      (hall r (List.mem_cons_self r rs))
    have h2 := processRowsFrom_pair sheetT ts rs (i + 1)
      (processRow sheetT ts i st r).1
      (fun x hx => hall x (List.mem_cons_of_mem r hx))
    rw [processRowsFrom]
    constructor
    · intro e he
      rcases List.mem_append.mp he with hmem | hmem
      · exact h1.1 e hmem
      · exact h2.1 e hmem
    · rw [List.map_append, simAT, List.foldl_append]
      rw [show (lookupS st (archivePath sheetT ts),
          lookupS st (targetPath sheetT)) =
        ((lookupS st (archivePath sheetT ts), lookupS st (targetPath sheetT)).1,
         (lookupS st (archivePath sheetT ts), lookupS st (targetPath sheetT)).2)
        from rfl]
      rw [show List.foldl simStep (lookupS st (archivePath sheetT ts),
          lookupS st (targetPath sheetT))
            ((processRow sheetT ts i st r).2.map (fun e => e.bytes)) =
          simAT (lookupS st (archivePath sheetT ts))
            (lookupS st (targetPath sheetT))
            ((processRow sheetT ts i st r).2.map (fun e => e.bytes)) from rfl]
      rw [← h1.2]
      rw [h2.2]
      rw [simAT]

theorem simAT_snd (a t : Option Nat) : ∀ bs : List Nat,
    (simAT a t bs).2 =
      match bs.getLast? with
      | some b => some b
      | none => t
  | [] => rfl
  | b :: bs => by
    have hstep : simAT a t (b :: bs) =
        simAT (match t with | some x => some x | none => a) (some b) bs := rfl
    rw [hstep, simAT_snd _ _ bs]
    cases bs with
    | nil => rfl
    | cons d t2 =>
      rw [List.getLast?_cons_cons]
      cases hgl : (d :: t2).getLast? with
      | none => exact absurd hgl (by simp)
      | some x => rfl

theorem simAT_fst (a t : Option Nat) : ∀ bs : List Nat, 2 ≤ bs.length →
    (simAT a t bs).1 = bs.dropLast.getLast?
  | b :: c :: bs, _ => by
    have hstep : simAT a t (b :: c :: bs) =
        simAT (match t with | some x => some x | none => a) (some b) (c :: bs) := rfl
    rw [hstep]
    cases bs with
    | nil => rfl
    | cons d bs2 =>
      rw [simAT_fst _ _ (c :: d :: bs2) (by simp)]
      rw [show (b :: c :: d :: bs2).dropLast = b :: (c :: d :: bs2).dropLast from rfl]
      rw [show (c :: d :: bs2).dropLast = c :: (d :: bs2).dropLast from rfl]
      rw [List.getLast?_cons_cons]

/-- Counterexample for C9: on sheet `S`, row 0 publishes bytes `1`
successfully; the attempt on row 1 archives and deletes the canonical
object and then fails at upload.  The last successfully published bytes
are `1`, yet afterwards the canonical path `DATASET/S/S.png` holds
nothing — not the last published image. -/
theorem c9_counterexample :
    lookupS (processSheet "T0" []
        ⟨"S", [[⟨"A2", true, 1, none⟩], [⟨"A3", true, 2, some 4⟩]]⟩).1
      (targetPath "S") = none
    ∧ ((processSheet "T0" []
        ⟨"S", [[⟨"A2", true, 1, none⟩], [⟨"A3", true, 2, some 4⟩]]⟩).2.filter
          (fun e => e.published)).map (fun e => e.bytes) = [1] := by
  exact ⟨by decide, by decide⟩

/-- Claim C9, amended: every image of a sheet is published to the single
canonical path of that sheet; when every attempt on the sheet succeeds,
each publish archives the previous canonical object under the run's
timestamped archive path, afterwards the canonical path holds the image
of the last published row (the last event's bytes), and with at least two
publishes the archive path holds the previous publish's bytes.  (A later
*failed* attempt can instead archive and delete the canonical object —
see the counterexample.) -/
theorem c9_same_target_last_wins (sh : Sheet) (ts : String) (st : Store)
    (hall : ∀ r ∈ sh.rows, ∀ c ∈ r, c.failAt = none) :
    (∀ e ∈ (processSheet ts st sh).2,
      e.published = true ∧ e.target = targetPath sh.title)
    ∧ lookupS (processSheet ts st sh).1 (targetPath sh.title)
        = (match ((processSheet ts st sh).2.map (fun e => e.bytes)).getLast? with
           | some b => some b
           | none => lookupS st (targetPath sh.title))
    ∧ (2 ≤ (processSheet ts st sh).2.length →
        lookupS (processSheet ts st sh).1 (archivePath sh.title ts)
          = ((processSheet ts st sh).2.map (fun e => e.bytes)).dropLast.getLast?) := by
  have hpair := processRowsFrom_pair sh.title ts sh.rows 0 st hall
  refine ⟨?_, ?_, ?_⟩
  · intro e he
    refine ⟨hpair.1 e he, ?_⟩
    exact (processRowsFrom_events sh.title ts sh.rows 0 st e he).2.2.1
  · have h2 := congrArg Prod.snd hpair.2
    rw [simAT_snd] at h2
    exact h2
  · intro hlen
    have h2 := congrArg Prod.fst hpair.2
    rw [simAT_fst _ _ _ (by simpa using hlen)] at h2
    exact h2

/-- Witness for C9 (amended): a sheet with successful publishes in two
rows ends with the second row's bytes at the canonical path and the first
row's bytes in the archive. -/
theorem c9_witness :
    lookupS (processSheet "T0" []
        ⟨"S", [[⟨"A2", true, 1, none⟩], [⟨"A3", true, 2, none⟩]]⟩).1
      (targetPath "S")
      = (match ((processSheet "T0" []
          ⟨"S", [[⟨"A2", true, 1, none⟩], [⟨"A3", true, 2, none⟩]]⟩).2.map
            (fun e => e.bytes)).getLast? with
         | some b => some b
         | none => lookupS [] (targetPath "S")) :=
  (c9_same_target_last_wins
    ⟨"S", [[⟨"A2", true, 1, none⟩], [⟨"A3", true, 2, none⟩]]⟩ "T0" []
    (by decide)).2.1

end AzureEtl
